import Mathlib

/-!
# Verification of the GlobalModuleIndex design

A shallow embedding of the global module index described in
`include/clang/Serialization/GlobalModuleIndex.h` and the accompanying design
document.  The repository ships only the public header (declarations); the
behaviour of the operations (`lookupIdentifier`, `readIndex`, `writeIndex`,
the builder and the on-disk codec) is modelled from the design document's
description, faithful to its words.

The data model follows the header: a `Modules` vector of `ModuleInfo` records
that may contain gaps (an empty `File` pointer), an identifier table mapping
identifier spellings to sets of module IDs, and two cumulative lookup
counters.
-/

namespace GMI

/-- A module file is identified by its stable identity (path).  The header's
`const FileEntry *` is modelled by this identity; a null pointer is modelled
as `Option.none` at the use sites. -/
abbrev FileEntry := String

/-- Information about a given module file (header: `GlobalModuleIndex::ModuleInfo`).
`File = none` models the empty file pointer that marks a gap in the module
vector. -/
structure ModuleInfo where
  File : Option FileEntry
  Dependencies : List FileEntry
  deriving DecidableEq

/-- Modelled from the spec: the complete on-disk artifact, "one ModuleFile
table plus one IdentifierEntry hash table".  The identifier table maps each
identifier spelling to the set of module IDs declaring it; the design note
says the exact bucket/probe layout is an implementation choice with no
semantic content, so the table is modelled by its observable contract as an
association list. -/
structure PersistedIndex where
  Modules : List ModuleInfo
  IdentifierTable : List (String × List Nat)
  deriving DecidableEq

/-- Look up an identifier spelling in the identifier table, comparing
spellings byte-for-byte ("correctness depends on spelling verification"). -/
def lookupTable : List (String × List Nat) → String → Option (List Nat)
  | [], _ => none
  | e :: rest, name => if e.1 = name then some e.2 else lookupTable rest name

/-- Insert a module ID into an entry's module-ID set (a set: no duplicate). -/
def insertID (i : Nat) (ids : List Nat) : List Nat :=
  if i ∈ ids then ids else ids ++ [i]

/-- Record that module `i` declares `name`: the entry's module-ID set gains
`i`, or a fresh entry is created the first time the identifier is seen. -/
def addIdent (i : Nat) : List (String × List Nat) → String → List (String × List Nat)
  | [], name => [(name, [i])]
  | e :: rest, name =>
    if e.1 = name then (e.1, insertID i e.2) :: rest else e :: addIdent i rest name

/-- Merge all identifiers of one module (with ID `i`) into the table. -/
def addIdents (i : Nat) (tbl : List (String × List Nat)) (names : List String) :
    List (String × List Nat) :=
  names.foldl (addIdent i) tbl

/-- Modelled from the spec: what the module-file collaborator yields for one
scanned module: its identity, its declared top-level identifiers/selectors
and its direct dependency list. -/
structure ModuleScan where
  path : FileEntry
  identifiers : List String
  dependencies : List FileEntry
  deriving DecidableEq

/-- Builder step 3: assign the next dense module ID, record the module's
dependency list, and merge its identifier contributions. -/
def addModule (p : PersistedIndex) (s : ModuleScan) : PersistedIndex :=
  { Modules := p.Modules ++ [⟨some s.path, s.dependencies⟩],
    IdentifierTable := addIdents p.Modules.length p.IdentifierTable s.identifiers }

/-- Modelled from the spec: a full build over a list of scanned modules
(`writeIndex` path, steps 1-4 of the builder algorithm, starting from an
empty index). -/
def buildIndex (scans : List ModuleScan) : PersistedIndex :=
  scans.foldl addModule ⟨[], []⟩

/-- The module IDs recorded for an identifier (empty when unknown). -/
def idsFor (p : PersistedIndex) (name : String) : List Nat :=
  (lookupTable p.IdentifierTable name).getD []

/-- Modelled from the spec: the query algorithm.  Returns whether the
identifier is known to the index, and the hit set of module files obtained by
translating each recorded module ID back to its module file, skipping gaps. -/
def lookupIdentifierPI (p : PersistedIndex) (name : String) : Bool × List FileEntry :=
  match lookupTable p.IdentifierTable name with
  | none => (false, [])
  | some ids => (true, ids.filterMap (fun i => (p.Modules.get? i).bind ModuleInfo.File))

/-- Find the module record with the given file identity. -/
def findModule : List ModuleInfo → FileEntry → Option ModuleInfo
  | [], _ => none
  | m :: rest, f => if m.File = some f then some m else findModule rest f

/-- Find the module ID (index into the module vector) bound to a file. -/
def findModuleID : List ModuleInfo → FileEntry → Option Nat
  | [], _ => none
  | m :: rest, f => if m.File = some f then some 0 else (findModuleID rest f).map (· + 1)

/-- `getKnownModules` on the persisted data: every module with a current
(non-gap) entry. -/
def knownModulesPI (p : PersistedIndex) : List FileEntry :=
  p.Modules.filterMap ModuleInfo.File

/-- `getModuleDependencies` on the persisted data. -/
def getModuleDependenciesPI (p : PersistedIndex) (f : FileEntry) : List FileEntry :=
  match findModule p.Modules f with
  | some m => m.Dependencies
  | none => []

/-!
## Container format codec

Modelled from the spec: a versioned, block-structured binary file (magic
number, version, then the ModuleFile block and the IdentifierEntry table,
each length-prefixed).  The spec treats the bit-packing/varint codec library
as an external collaborator specified only by its observable contract, so the
byte stream is modelled as a `List Nat` of abstract code units.  Reading
fails with `none` (never partial success) on a bad magic number, a version
mismatch, truncation, or trailing garbage.
-/

/-- Encode a string: length prefix, then its character code units. -/
def encodeString (s : String) : List Nat :=
  s.toList.length :: s.toList.map Char.toNat

/-- Decode exactly `n` characters from the stream. -/
def decodeChars : Nat → List Nat → Option (List Char × List Nat)
  | 0, rest => some ([], rest)
  | _ + 1, [] => none
  | n + 1, c :: rest =>
    match decodeChars n rest with
    | none => none
    | some (cs, r) => some (Char.ofNat c :: cs, r)

/-- Decode a length-prefixed string. -/
def decodeString : List Nat → Option (String × List Nat)
  | [] => none
  | n :: rest =>
    match decodeChars n rest with
    | none => none
    | some (cs, r) => some (String.mk cs, r)

/-- Encode a list of numbers (module-ID set): length prefix, then elements. -/
def encodeNats (l : List Nat) : List Nat :=
  l.length :: l

/-- Decode exactly `n` numbers from the stream. -/
def decodeNatsAux : Nat → List Nat → Option (List Nat × List Nat)
  | 0, rest => some ([], rest)
  | _ + 1, [] => none
  | n + 1, x :: rest =>
    match decodeNatsAux n rest with
    | none => none
    | some (xs, r) => some (x :: xs, r)

/-- Decode a length-prefixed list of numbers. -/
def decodeNats : List Nat → Option (List Nat × List Nat)
  | [] => none
  | n :: rest => decodeNatsAux n rest

/-- Encode a list of strings: length prefix, then the encoded strings. -/
def encodeStrings (l : List FileEntry) : List Nat :=
  l.length :: (l.map encodeString).flatten

/-- Decode exactly `n` length-prefixed strings. -/
def decodeStringsAux : Nat → List Nat → Option (List FileEntry × List Nat)
  | 0, rest => some ([], rest)
  | n + 1, rest =>
    match decodeString rest with
    | none => none
    | some (s, r) =>
      match decodeStringsAux n r with
      | none => none
      | some (ss, r2) => some (s :: ss, r2)

/-- Decode a length-prefixed list of strings. -/
def decodeStrings : List Nat → Option (List FileEntry × List Nat)
  | [] => none
  | n :: rest => decodeStringsAux n rest

/-- Encode one ModuleFile record: an occupancy tag (`0` marks a gap left by a
removed module, `1` an occupied slot with its identity), then the dependency
list. -/
def encodeModuleInfo (m : ModuleInfo) : List Nat :=
  match m.File with
  | none => 0 :: encodeStrings m.Dependencies
  | some f => 1 :: (encodeString f ++ encodeStrings m.Dependencies)

/-- Decode one ModuleFile record. -/
def decodeModuleInfo : List Nat → Option (ModuleInfo × List Nat)
  | 0 :: rest =>
    (match decodeStrings rest with
     | none => none
     | some (deps, r) => some (⟨none, deps⟩, r))
  | 1 :: rest =>
    (match decodeString rest with
     | none => none
     | some (f, r) =>
       match decodeStrings r with
       | none => none
       | some (deps, r2) => some (⟨some f, deps⟩, r2))
  | _ => none

/-- Decode exactly `n` ModuleFile records. -/
def decodeModulesAux : Nat → List Nat → Option (List ModuleInfo × List Nat)
  | 0, rest => some ([], rest)
  | n + 1, rest =>
    match decodeModuleInfo rest with
    | none => none
    | some (m, r) =>
      match decodeModulesAux n r with
      | none => none
      | some (ms, r2) => some (m :: ms, r2)

/-- Encode one IdentifierEntry: its spelling then its module-ID set. -/
def encodeEntry (e : String × List Nat) : List Nat :=
  encodeString e.1 ++ encodeNats e.2

/-- Decode one IdentifierEntry. -/
def decodeEntry (l : List Nat) : Option ((String × List Nat) × List Nat) :=
  match decodeString l with
  | none => none
  | some (s, r) =>
    match decodeNats r with
    | none => none
    | some (ids, r2) => some ((s, ids), r2)

/-- Decode exactly `n` IdentifierEntry records. -/
def decodeEntriesAux : Nat → List Nat → Option (List (String × List Nat) × List Nat)
  | 0, rest => some ([], rest)
  | n + 1, rest =>
    match decodeEntry rest with
    | none => none
    | some (e, r) =>
      match decodeEntriesAux n r with
      | none => none
      | some (es, r2) => some (e :: es, r2)

/-- The index file's magic number. -/
def indexMagic : List Nat := [71, 77, 73, 88]

/-- The index file's format version. -/
def indexVersion : Nat := 1

/-- Modelled from the spec: serialize the whole index: header (magic number,
format version), the ModuleFile block, and the IdentifierEntry table. -/
def serialize (p : PersistedIndex) : List Nat :=
  indexMagic ++ [indexVersion]
    ++ (p.Modules.length :: (p.Modules.map encodeModuleInfo).flatten)
    ++ (p.IdentifierTable.length :: (p.IdentifierTable.map encodeEntry).flatten)

/-- Modelled from the spec: deserialize an index file.  Validates the magic
number and format version, then reads both blocks; any truncation, bad tag or
trailing garbage yields `none` (a `FormatError`, never partial success). -/
def deserialize (l : List Nat) : Option PersistedIndex :=
  match l with
  | a :: b :: c :: d :: v :: mc :: rest =>
    if [a, b, c, d] = indexMagic ∧ v = indexVersion then
      match decodeModulesAux mc rest with
      | none => none
      | some (ms, r) =>
        match r with
        | ic :: r2 =>
          (match decodeEntriesAux ic r2 with
           | none => none
           | some (tbl, r3) => if r3 = [] then some ⟨ms, tbl⟩ else none)
        | [] => none
    else none
  | _ => none

/-! ### Codec round-trip lemmas -/

theorem decodeChars_encode (cs : List Char) (r : List Nat) :
    decodeChars cs.length (cs.map Char.toNat ++ r) = some (cs, r) := by
  induction cs with
  | nil => simp [decodeChars]
  | cons c cs ih => simp [decodeChars, ih]

theorem decodeString_encode (s : String) (r : List Nat) :
    decodeString (encodeString s ++ r) = some (s, r) := by
  have h2 := decodeChars_encode s.toList r
  simp only [encodeString, List.cons_append, decodeString, h2]
  rfl

theorem decodeNatsAux_encode (l : List Nat) (r : List Nat) :
    decodeNatsAux l.length (l ++ r) = some (l, r) := by
  induction l with
  | nil => simp [decodeNatsAux]
  | cons x xs ih => simp [decodeNatsAux, ih]

theorem decodeNats_encode (l : List Nat) (r : List Nat) :
    decodeNats (encodeNats l ++ r) = some (l, r) := by
  simp [encodeNats, decodeNats, decodeNatsAux_encode]

theorem decodeStringsAux_encode (ss : List FileEntry) (r : List Nat) :
    decodeStringsAux ss.length ((ss.map encodeString).flatten ++ r) = some (ss, r) := by
  induction ss generalizing r with
  | nil => simp [decodeStringsAux]
  | cons s ss ih =>
    simp [decodeStringsAux, List.append_assoc, decodeString_encode, ih]

theorem decodeStrings_encode (ss : List FileEntry) (r : List Nat) :
    decodeStrings (encodeStrings ss ++ r) = some (ss, r) := by
  simp [encodeStrings, decodeStrings, decodeStringsAux_encode]

theorem decodeModuleInfo_encode (m : ModuleInfo) (r : List Nat) :
    decodeModuleInfo (encodeModuleInfo m ++ r) = some (m, r) := by
  cases m with
  | mk file deps =>
    cases file with
    | none => simp [encodeModuleInfo, decodeModuleInfo, decodeStrings_encode]
    | some f =>
      simp [encodeModuleInfo, decodeModuleInfo, List.append_assoc,
        decodeString_encode, decodeStrings_encode]

theorem decodeModulesAux_encode (ms : List ModuleInfo) (r : List Nat) :
    decodeModulesAux ms.length ((ms.map encodeModuleInfo).flatten ++ r) = some (ms, r) := by
  induction ms generalizing r with
  | nil => simp [decodeModulesAux]
  | cons m ms ih =>
    simp [decodeModulesAux, List.append_assoc, decodeModuleInfo_encode, ih]

theorem decodeEntry_encode (e : String × List Nat) (r : List Nat) :
    decodeEntry (encodeEntry e ++ r) = some (e, r) := by
  simp [encodeEntry, decodeEntry, List.append_assoc, decodeString_encode,
    decodeNats_encode]

theorem decodeEntriesAux_encode (es : List (String × List Nat)) (r : List Nat) :
    decodeEntriesAux es.length ((es.map encodeEntry).flatten ++ r) = some (es, r) := by
  induction es generalizing r with
  | nil => simp [decodeEntriesAux]
  | cons e es ih =>
    simp [decodeEntriesAux, List.append_assoc, decodeEntry_encode, ih]

/-- Serialize/deserialize idempotence at the codec level. -/
theorem deserialize_serialize (p : PersistedIndex) :
    deserialize (serialize p) = some p := by
  have h1 := decodeModulesAux_encode p.Modules
    (p.IdentifierTable.length :: (p.IdentifierTable.map encodeEntry).flatten)
  have h2 := decodeEntriesAux_encode p.IdentifierTable []
  simp only [List.append_nil] at h2
  simp [serialize, deserialize, indexMagic, indexVersion, h1, h2]

/-!
## Reader state, error codes and the module-cache directory

`ErrorCode` is taken verbatim from the header.  The directory holding the
index file is modelled from the spec's publish strategy: the published index
file, a staging (temporary) file, and the advisory "building" marker.
-/

/-- An error code returned when trying to read an index (header:
`GlobalModuleIndex::ErrorCode`). -/
inductive ErrorCode where
  /-- No error occurred. -/
  | EC_None
  /-- No index was found. -/
  | EC_NotFound
  /-- Some other process is currently building the index; it is not
  available yet. -/
  | EC_Building
  /-- There was an unspecified I/O error reading or writing the index. -/
  | EC_IOError
  deriving DecidableEq

/-- Modelled from the spec: the shared module-cache directory as seen through
the file system collaborator: the published index file (if any), the
builder's staging file, and the advisory building marker. -/
structure Directory where
  index : Option (List Nat)
  temp : Option (List Nat)
  marker : Bool
  deriving DecidableEq

/-- Modelled from the spec: `readIndex` (the reader's `open`).  A visible
building marker yields `EC_Building`; a missing file yields `EC_NotFound`; a
file that fails to deserialize (corrupt, truncated or version-mismatched)
yields `EC_IOError`; otherwise the decoded index is returned with
`EC_None`. -/
def readIndexDir (d : Directory) : Option PersistedIndex × ErrorCode :=
  if d.marker then (none, ErrorCode.EC_Building)
  else
    match d.index with
    | none => (none, ErrorCode.EC_NotFound)
    | some bs =>
      match deserialize bs with
      | none => (none, ErrorCode.EC_IOError)
      | some p => (some p, ErrorCode.EC_None)

/-- Modelled from the spec: the sequence of directory states a builder's
publish pass moves through: set the advisory marker, write the staging file,
then either atomically rename it over the index path (success) or discard it
(failed publish), clearing the marker either way.  The published index is
only ever replaced by the single atomic rename step. -/
def builderTrace (d : Directory) (bytes : List Nat) (publishOk : Bool) :
    List Directory :=
  [d,
   { d with marker := true },
   { d with marker := true, temp := some bytes },
   if publishOk then { index := some bytes, temp := none, marker := false }
   else { index := d.index, temp := none, marker := false }]

/-- Modelled from the spec: `writeIndex`'s final publish step.  A concurrent
builder's marker makes this builder back off with `EC_Building`; a failing
publish leaves the previously published index untouched and reports
`EC_IOError`. -/
def writeIndexDir (d : Directory) (p : PersistedIndex) (publishOk : Bool) :
    Directory × ErrorCode :=
  if d.marker then (d, ErrorCode.EC_Building)
  else if publishOk then
    ({ index := some (serialize p), temp := none, marker := false },
     ErrorCode.EC_None)
  else
    ({ index := d.index, temp := none, marker := false }, ErrorCode.EC_IOError)

/-!
## The in-memory reader with its statistics counters

The structure mirrors the header's fields: the module vector, the identifier
index, and the two cumulative lookup counters.
-/

/-- The in-memory global module index (header: `GlobalModuleIndex`): module
vector, identifier index, and the cumulative statistics counters. -/
structure GlobalModuleIndex where
  Modules : List ModuleInfo
  IdentifierIndex : List (String × List Nat)
  NumIdentifierLookups : Nat
  NumIdentifierLookupHits : Nat
  deriving DecidableEq

/-- The reader state obtained from a freshly opened persisted index: counters
start at zero for the process. -/
def ofPersisted (p : PersistedIndex) : GlobalModuleIndex :=
  ⟨p.Modules, p.IdentifierTable, 0, 0⟩

/-- The persisted view of a reader (forgetting the counters). -/
def toPersisted (g : GlobalModuleIndex) : PersistedIndex :=
  ⟨g.Modules, g.IdentifierIndex⟩

/-- `GlobalModuleIndex::lookupIdentifier`: returns whether the identifier is
known and the hit set of module files, and bumps the cumulative lookup
counter by one and the hit counter by one exactly when the identifier was
found. -/
def lookupIdentifier (g : GlobalModuleIndex) (Name : String) :
    (Bool × List FileEntry) × GlobalModuleIndex :=
  let res := lookupIdentifierPI (toPersisted g) Name
  (res,
   { g with
     NumIdentifierLookups := g.NumIdentifierLookups + 1,
     NumIdentifierLookupHits :=
       g.NumIdentifierLookupHits + if res.1 then 1 else 0 })

/-- `GlobalModuleIndex::getKnownModules`: the set of module files that have
been indexed (gaps excluded). -/
def getKnownModules (g : GlobalModuleIndex) : List FileEntry :=
  g.Modules.filterMap ModuleInfo.File

/-- `GlobalModuleIndex::getModuleDependencies`. -/
def getModuleDependencies (g : GlobalModuleIndex) (f : FileEntry) :
    List FileEntry :=
  getModuleDependenciesPI (toPersisted g) f

/-- One reader-side operation performed during a process's lifetime. -/
inductive ReaderOp where
  | lookup (name : String)
  | knownModules
  | dependencies (f : FileEntry)
  deriving DecidableEq

/-- Apply one reader operation to the reader state (queries other than
identifier lookups do not touch the lookup counters). -/
def applyReaderOp (g : GlobalModuleIndex) : ReaderOp → GlobalModuleIndex
  | ReaderOp.lookup name => (lookupIdentifier g name).2
  | ReaderOp.knownModules => g
  | ReaderOp.dependencies _ => g

/-- Run a sequence of reader operations. -/
def runOps (g : GlobalModuleIndex) (ops : List ReaderOp) : GlobalModuleIndex :=
  ops.foldl applyReaderOp g

/-- Whether an operation is an identifier lookup. -/
def isLookup : ReaderOp → Bool
  | ReaderOp.lookup _ => true
  | _ => false

/-- Whether a lookup of `name` against reader `g` hits. -/
def hitsOn (g : GlobalModuleIndex) : ReaderOp → Bool
  | ReaderOp.lookup name => (lookupIdentifierPI (toPersisted g) name).1
  | _ => false

/-!
## Module registry operations

Modelled from the spec (§4.2 and the ModuleFile lifecycle): registering a
module assigns a new dense ID or refreshes the existing entry; removing a
module clears its identity, leaving a gap, never compacting the vector.
-/

/-- A mutation of the module registry during a build pass. -/
inductive RegistryOp where
  /-- Register a module: reuse its slot (refreshing dependencies) if the
  path is already known, else append a fresh slot with the next ID. -/
  | register (path : FileEntry) (deps : List FileEntry)
  /-- Remove a module: clear its identity, leaving a gap. -/
  | remove (path : FileEntry)
  deriving DecidableEq

/-- Apply a registry operation to the module vector. -/
def applyRegistryOp (ms : List ModuleInfo) : RegistryOp → List ModuleInfo
  | RegistryOp.register path deps =>
    match findModuleID ms path with
    | some i => ms.set i ⟨some path, deps⟩
    | none => ms ++ [⟨some path, deps⟩]
  | RegistryOp.remove path =>
    ms.map fun m => if m.File = some path then ⟨none, m.Dependencies⟩ else m

/-- `getKnownModules` on a raw module vector. -/
def knownModulesOf (ms : List ModuleInfo) : List FileEntry :=
  ms.filterMap ModuleInfo.File

/-!
## Identifier-table lemmas
-/

theorem mem_insertID (x i : Nat) (l : List Nat) :
    x ∈ insertID i l ↔ x ∈ l ∨ x = i := by
  unfold insertID
  by_cases h : i ∈ l
  · simp only [if_pos h]
    constructor
    · exact Or.inl
    · rintro (hx | rfl)
      · exact hx
      · exact h
  · simp [if_neg h]

theorem insertID_idem (i : Nat) (l : List Nat) :
    insertID i (insertID i l) = insertID i l := by
  unfold insertID
  by_cases h : i ∈ l
  · simp [if_pos h]
  · simp [if_neg h]

theorem lookupTable_addIdent_self (i : Nat) (tbl : List (String × List Nat))
    (name : String) :
    lookupTable (addIdent i tbl name) name
      = some (insertID i ((lookupTable tbl name).getD [])) := by
  induction tbl with
  | nil => simp [addIdent, lookupTable, insertID]
  | cons e rest ih =>
    by_cases h : e.1 = name
    · simp [addIdent, lookupTable, h]
    · simp [addIdent, lookupTable, h, ih]

theorem lookupTable_addIdent_ne (i : Nat) (tbl : List (String × List Nat))
    (name name' : String) (h : name' ≠ name) :
    lookupTable (addIdent i tbl name) name' = lookupTable tbl name' := by
  have h1 : ¬ (name = name') := fun hh => h hh.symm
  induction tbl with
  | nil => simp [addIdent, lookupTable, h1]
  | cons e rest ih =>
    by_cases he : e.1 = name
    · have h2 : ¬ (e.1 = name') := by rw [he]; exact h1
      simp [addIdent, lookupTable, he, h1, h2]
    · by_cases he' : e.1 = name'
      · simp [addIdent, lookupTable, he, he', h, h1]
      · simp [addIdent, lookupTable, he, he', ih]

theorem lookupTable_addIdents (i : Nat) (tbl : List (String × List Nat))
    (names : List String) (name : String) :
    lookupTable (addIdents i tbl names) name
      = if name ∈ names
        then some (insertID i ((lookupTable tbl name).getD []))
        else lookupTable tbl name := by
  induction names generalizing tbl with
  | nil => simp [addIdents]
  | cons n rest ih =>
    have step : addIdents i tbl (n :: rest) = addIdents i (addIdent i tbl n) rest := rfl
    rw [step, ih]
    by_cases hn : name = n
    · subst hn
      rw [lookupTable_addIdent_self]
      by_cases hr : name ∈ rest
      · simp [hr, insertID_idem]
      · simp [hr]
    · rw [lookupTable_addIdent_ne i tbl n name hn]
      by_cases hr : name ∈ rest
      · simp [hr, hn]
      · simp [hr, hn]

/-!
## Characterizing a full build
-/

/-- A build continuing from an arbitrary working state (used to reason about
`buildIndex` by induction). -/
def buildFrom (p : PersistedIndex) (scans : List ModuleScan) : PersistedIndex :=
  scans.foldl addModule p

theorem buildIndex_eq_buildFrom (scans : List ModuleScan) :
    buildIndex scans = buildFrom ⟨[], []⟩ scans := rfl

theorem buildFrom_modules (p : PersistedIndex) (scans : List ModuleScan) :
    (buildFrom p scans).Modules
      = p.Modules ++ scans.map (fun s => ⟨some s.path, s.dependencies⟩) := by
  induction scans generalizing p with
  | nil => simp [buildFrom]
  | cons s rest ih =>
    have step : buildFrom p (s :: rest) = buildFrom (addModule p s) rest := rfl
    rw [step, ih]
    simp [addModule]

theorem idsFor_addModule (p : PersistedIndex) (s : ModuleScan) (name : String)
    (x : Nat) :
    x ∈ idsFor (addModule p s) name
      ↔ x ∈ idsFor p name ∨ (name ∈ s.identifiers ∧ x = p.Modules.length) := by
  unfold idsFor addModule
  simp only [lookupTable_addIdents]
  by_cases hn : name ∈ s.identifiers
  · simp only [if_pos hn, Option.getD_some, mem_insertID]
    tauto
  · simp [hn]

theorem mem_idsFor_buildFrom (p : PersistedIndex) (scans : List ModuleScan)
    (name : String) (x : Nat) :
    x ∈ idsFor (buildFrom p scans) name
      ↔ x ∈ idsFor p name
        ∨ ∃ k s, scans.get? k = some s ∧ name ∈ s.identifiers
            ∧ x = p.Modules.length + k := by
  induction scans generalizing p with
  | nil => simp [buildFrom]
  | cons s rest ih =>
    have step : buildFrom p (s :: rest) = buildFrom (addModule p s) rest := rfl
    rw [step, ih, idsFor_addModule]
    have hlen : (addModule p s).Modules.length = p.Modules.length + 1 := by
      simp [addModule]
    constructor
    · rintro ((hx | ⟨hn, rfl⟩) | ⟨k, s', hget, hn, rfl⟩)
      · exact Or.inl hx
      · exact Or.inr ⟨0, s, rfl, hn, by omega⟩
      · exact Or.inr ⟨k + 1, s', by simpa using hget, hn, by omega⟩
    · rintro (hx | ⟨k, s', hget, hn, rfl⟩)
      · exact Or.inl (Or.inl hx)
      · cases k with
        | zero =>
          simp only [List.get?] at hget
          cases hget
          exact Or.inl (Or.inr ⟨hn, by omega⟩)
        | succ k =>
          simp only [List.get?] at hget
          exact Or.inr ⟨k, s', hget, hn, by omega⟩

theorem found_addModule (p : PersistedIndex) (s : ModuleScan) (name : String) :
    (lookupTable (addModule p s).IdentifierTable name).isSome
      ↔ (lookupTable p.IdentifierTable name).isSome ∨ name ∈ s.identifiers := by
  unfold addModule
  simp only [lookupTable_addIdents]
  by_cases hn : name ∈ s.identifiers
  · simp [hn]
  · simp [hn]

theorem found_buildFrom (p : PersistedIndex) (scans : List ModuleScan)
    (name : String) :
    (lookupTable (buildFrom p scans).IdentifierTable name).isSome
      ↔ (lookupTable p.IdentifierTable name).isSome
        ∨ ∃ s ∈ scans, name ∈ s.identifiers := by
  induction scans generalizing p with
  | nil => simp [buildFrom]
  | cons s rest ih =>
    have step : buildFrom p (s :: rest) = buildFrom (addModule p s) rest := rfl
    rw [step, ih, found_addModule]
    constructor
    · rintro ((h | h) | ⟨s', hs', h⟩)
      · exact Or.inl h
      · exact Or.inr ⟨s, List.mem_cons_self s rest, h⟩
      · exact Or.inr ⟨s', List.mem_cons_of_mem s hs', h⟩
    · rintro (h | ⟨s', hs', h⟩)
      · exact Or.inl (Or.inl h)
      · rcases List.mem_cons.mp hs' with rfl | hs'
        · exact Or.inl (Or.inr h)
        · exact Or.inr ⟨s', hs', h⟩

theorem mem_hits (p : PersistedIndex) (name : String) (f : FileEntry) :
    f ∈ (lookupIdentifierPI p name).2
      ↔ ∃ i, i ∈ idsFor p name
          ∧ (p.Modules.get? i).bind ModuleInfo.File = some f := by
  unfold lookupIdentifierPI idsFor
  cases h : lookupTable p.IdentifierTable name with
  | none => simp
  | some ids => simp [List.mem_filterMap]

theorem found_eq (p : PersistedIndex) (name : String) :
    (lookupIdentifierPI p name).1
      = (lookupTable p.IdentifierTable name).isSome := by
  unfold lookupIdentifierPI
  cases h : lookupTable p.IdentifierTable name <;> simp

theorem buildIndex_found (scans : List ModuleScan) (name : String) :
    (lookupIdentifierPI (buildIndex scans) name).1 = true
      ↔ ∃ s ∈ scans, name ∈ s.identifiers := by
  rw [found_eq, buildIndex_eq_buildFrom, found_buildFrom]
  simp [lookupTable]

theorem buildIndex_hits (scans : List ModuleScan) (name : String) (f : FileEntry) :
    f ∈ (lookupIdentifierPI (buildIndex scans) name).2
      ↔ ∃ s ∈ scans, name ∈ s.identifiers ∧ s.path = f := by
  rw [mem_hits]
  have hmods : (buildIndex scans).Modules
      = scans.map (fun s => (⟨some s.path, s.dependencies⟩ : ModuleInfo)) := by
    rw [buildIndex_eq_buildFrom, buildFrom_modules]; rfl
  constructor
  · rintro ⟨i, hi, hf⟩
    rw [buildIndex_eq_buildFrom, mem_idsFor_buildFrom] at hi
    rcases hi with h | ⟨k, s, hget, hn, hik⟩
    · simp [idsFor, lookupTable] at h
    · have hik' : i = k := by simpa using hik
      rw [hik'] at hf
      rw [hmods, List.get?_map, hget] at hf
      simp at hf
      exact ⟨s, (List.mem_iff_get?).mpr ⟨k, hget⟩, hn, by simpa using hf⟩
  · rintro ⟨s, hs, hn, rfl⟩
    rcases (List.mem_iff_get?).mp hs with ⟨k, hget⟩
    refine ⟨k, ?_, ?_⟩
    · rw [buildIndex_eq_buildFrom, mem_idsFor_buildFrom]
      exact Or.inr ⟨k, s, hget, hn, by simp⟩
    · rw [hmods, List.get?_map, hget]
      simp

theorem buildIndex_miss (scans : List ModuleScan) (name : String)
    (h : ∀ s ∈ scans, name ∉ s.identifiers) :
    lookupIdentifierPI (buildIndex scans) name = (false, []) := by
  have hnone : lookupTable (buildIndex scans).IdentifierTable name = none := by
    have hf := found_buildFrom ⟨[], []⟩ scans name
    rw [← buildIndex_eq_buildFrom] at hf
    rw [← Option.not_isSome_iff_eq_none]
    intro hs
    rcases hf.mp hs with hbase | ⟨s, hsmem, hn⟩
    · simp [lookupTable] at hbase
    · exact h s hsmem hn
  unfold lookupIdentifierPI
  rw [hnone]

theorem lookupIdentifier_fst (g : GlobalModuleIndex) (name : String) :
    (lookupIdentifier g name).1 = lookupIdentifierPI (toPersisted g) name := rfl

theorem toPersisted_ofPersisted (p : PersistedIndex) :
    toPersisted (ofPersisted p) = p := rfl

/-!
## The claims
-/

/-- C1: For every identifier inserted during a build, calling
`lookupIdentifier` on the published index (built, published into the
directory, and read back) returns `true` and populates the hit set with
exactly the set of module files that declared a namespace-scope binding or
selector with that name: no false negatives for indexed modules, no extra
modules. -/
theorem C1_lookupIdentifier_after_build (scans : List ModuleScan)
    (d : Directory) (name : String) (hm : d.marker = false)
    (hdecl : ∃ s ∈ scans, name ∈ s.identifiers) :
    (readIndexDir (writeIndexDir d (buildIndex scans) true).1).1
        = some (buildIndex scans)
    ∧ (lookupIdentifier (ofPersisted (buildIndex scans)) name).1.1 = true
    ∧ ∀ f, f ∈ (lookupIdentifier (ofPersisted (buildIndex scans)) name).1.2
        ↔ ∃ s ∈ scans, name ∈ s.identifiers ∧ s.path = f := by
  refine ⟨?_, ?_, ?_⟩
  · simp [writeIndexDir, hm, readIndexDir, deserialize_serialize]
  · rw [show (lookupIdentifier (ofPersisted (buildIndex scans)) name).1
        = lookupIdentifierPI (buildIndex scans) name from rfl]
    exact (buildIndex_found scans name).mpr hdecl
  · intro f
    rw [show (lookupIdentifier (ofPersisted (buildIndex scans)) name).1
        = lookupIdentifierPI (buildIndex scans) name from rfl]
    exact buildIndex_hits scans name f

/-- Witness for C1 at the spec's example: modules M1 (declares foo, bar) and
M2 (declares foo, baz), looked up at "foo". -/
theorem C1_lookupIdentifier_after_build_witness :
    ((⟨none, none, false⟩ : Directory).marker = false
      ∧ ∃ s ∈ [(⟨"M1", ["foo", "bar"], []⟩ : ModuleScan),
               (⟨"M2", ["foo", "baz"], []⟩ : ModuleScan)],
          "foo" ∈ s.identifiers)
    ∧ ((readIndexDir (writeIndexDir ⟨none, none, false⟩
          (buildIndex [⟨"M1", ["foo", "bar"], []⟩, ⟨"M2", ["foo", "baz"], []⟩])
          true).1).1
        = some (buildIndex [⟨"M1", ["foo", "bar"], []⟩, ⟨"M2", ["foo", "baz"], []⟩])
      ∧ (lookupIdentifier (ofPersisted (buildIndex
            [⟨"M1", ["foo", "bar"], []⟩, ⟨"M2", ["foo", "baz"], []⟩])) "foo").1.1
          = true
      ∧ ∀ f, f ∈ (lookupIdentifier (ofPersisted (buildIndex
            [⟨"M1", ["foo", "bar"], []⟩, ⟨"M2", ["foo", "baz"], []⟩])) "foo").1.2
          ↔ ∃ s ∈ [(⟨"M1", ["foo", "bar"], []⟩ : ModuleScan),
                   (⟨"M2", ["foo", "baz"], []⟩ : ModuleScan)],
              "foo" ∈ s.identifiers ∧ s.path = f) :=
  ⟨⟨rfl, by decide⟩,
   C1_lookupIdentifier_after_build
     [⟨"M1", ["foo", "bar"], []⟩, ⟨"M2", ["foo", "baz"], []⟩]
     ⟨none, none, false⟩ "foo" rfl (by decide)⟩

/-- C2: For any identifier string never seen in any scanned module,
`lookupIdentifier` returns `false` and the hit set it populates is empty; the
miss is an ordinary returned value (the empty set), not an error. -/
theorem C2_lookupIdentifier_miss (scans : List ModuleScan) (name : String)
    (h : ∀ s ∈ scans, name ∉ s.identifiers) :
    (lookupIdentifier (ofPersisted (buildIndex scans)) name).1 = (false, []) := by
  rw [show (lookupIdentifier (ofPersisted (buildIndex scans)) name).1
      = lookupIdentifierPI (buildIndex scans) name from rfl]
  exact buildIndex_miss scans name h

/-- Witness for C2 at the spec's example: "qux" is declared by neither M1 nor
M2. -/
theorem C2_lookupIdentifier_miss_witness :
    (∀ s ∈ [(⟨"M1", ["foo", "bar"], []⟩ : ModuleScan),
            (⟨"M2", ["foo", "baz"], []⟩ : ModuleScan)],
        "qux" ∉ s.identifiers)
    ∧ (lookupIdentifier (ofPersisted (buildIndex
          [⟨"M1", ["foo", "bar"], []⟩, ⟨"M2", ["foo", "baz"], []⟩])) "qux").1
        = (false, []) :=
  ⟨by decide,
   C2_lookupIdentifier_miss
     [⟨"M1", ["foo", "bar"], []⟩, ⟨"M2", ["foo", "baz"], []⟩] "qux" (by decide)⟩

/-- C3: `readIndex` always returns an error code drawn from exactly
`{EC_None, EC_NotFound, EC_Building, EC_IOError}`; whenever the code is not
`EC_None` the returned reader is unusable (`none`); and a corrupt or
version-mismatched file yields such an error code (here `EC_IOError`) rather
than a crash. -/
theorem C3_readIndex_error_codes (d : Directory) :
    ((readIndexDir d).2 = ErrorCode.EC_None
      ∨ (readIndexDir d).2 = ErrorCode.EC_NotFound
      ∨ (readIndexDir d).2 = ErrorCode.EC_Building
      ∨ (readIndexDir d).2 = ErrorCode.EC_IOError)
    ∧ ((readIndexDir d).2 ≠ ErrorCode.EC_None → (readIndexDir d).1 = none)
    ∧ (∀ bs, d.marker = false → d.index = some bs → deserialize bs = none →
        readIndexDir d = (none, ErrorCode.EC_IOError)) := by
  refine ⟨?_, ?_, ?_⟩
  · by_cases hm : d.marker
    · simp [readIndexDir, hm]
    · cases hi : d.index with
      | none => simp [readIndexDir, hm, hi]
      | some bs =>
        cases hd : deserialize bs with
        | none => simp [readIndexDir, hm, hi, hd]
        | some p => simp [readIndexDir, hm, hi, hd]
  · intro hne
    by_cases hm : d.marker
    · simp [readIndexDir, hm]
    · cases hi : d.index with
      | none => simp [readIndexDir, hm, hi]
      | some bs =>
        cases hd : deserialize bs with
        | none => simp [readIndexDir, hm, hi, hd]
        | some p => exact absurd (by simp [readIndexDir, hm, hi, hd]) hne
  · intro bs hm hi hd
    simp [readIndexDir, hm, hi, hd]

/-- Witness for C3: a one-byte file (bad magic) is rejected with
`EC_IOError` and no reader, not a crash. -/
theorem C3_readIndex_error_codes_witness :
    readIndexDir ⟨some [0], none, false⟩ = (none, ErrorCode.EC_IOError) :=
  (C3_readIndex_error_codes ⟨some [0], none, false⟩).2.2 [0] rfl rfl rfl

/-- C5: round-trip: writing any in-memory index into a directory with
`writeIndex` and reading it back with `readIndex` reproduces the same
dependency graph (`getModuleDependencies`) and the same identifier-to-module
mapping (`lookupIdentifier`) as the in-memory structure used to build it. -/
theorem C5_write_read_roundtrip (p : PersistedIndex) (d : Directory)
    (hm : d.marker = false) :
    ∃ q, (readIndexDir (writeIndexDir d p true).1).1 = some q
      ∧ q = p
      ∧ (∀ f, getModuleDependenciesPI q f = getModuleDependenciesPI p f)
      ∧ (∀ name, lookupIdentifierPI q name = lookupIdentifierPI p name) := by
  refine ⟨p, ?_, rfl, fun _ => rfl, fun _ => rfl⟩
  simp [writeIndexDir, hm, readIndexDir, deserialize_serialize]

/-- Witness for C5 on a concrete two-module index with a dependency and a
shared identifier. -/
theorem C5_write_read_roundtrip_witness :
    ((⟨none, none, false⟩ : Directory).marker = false)
    ∧ ∃ q, (readIndexDir (writeIndexDir ⟨none, none, false⟩
          ⟨[⟨some "M1", []⟩, ⟨some "M2", ["M1"]⟩], [("foo", [0, 1]), ("bar", [0])]⟩
          true).1).1 = some q
        ∧ q = ⟨[⟨some "M1", []⟩, ⟨some "M2", ["M1"]⟩],
               [("foo", [0, 1]), ("bar", [0])]⟩
        ∧ (∀ f, getModuleDependenciesPI q f
            = getModuleDependenciesPI
                ⟨[⟨some "M1", []⟩, ⟨some "M2", ["M1"]⟩],
                 [("foo", [0, 1]), ("bar", [0])]⟩ f)
        ∧ (∀ name, lookupIdentifierPI q name
            = lookupIdentifierPI
                ⟨[⟨some "M1", []⟩, ⟨some "M2", ["M1"]⟩],
                 [("foo", [0, 1]), ("bar", [0])]⟩ name) :=
  ⟨rfl,
   C5_write_read_roundtrip
     ⟨[⟨some "M1", []⟩, ⟨some "M2", ["M1"]⟩], [("foo", [0, 1]), ("bar", [0])]⟩
     ⟨none, none, false⟩ rfl⟩

/-!
## Counter lemmas (C7, C10)
-/

/-- Number of identifier lookups in an operation sequence. -/
def countLookups (ops : List ReaderOp) : Nat :=
  (ops.filter isLookup).length

theorem applyReaderOp_lookups (g : GlobalModuleIndex) (op : ReaderOp) :
    (applyReaderOp g op).NumIdentifierLookups
      = g.NumIdentifierLookups + (if isLookup op then 1 else 0) := by
  cases op <;> simp [applyReaderOp, lookupIdentifier, isLookup]

theorem applyReaderOp_hits (g : GlobalModuleIndex) (op : ReaderOp) :
    (applyReaderOp g op).NumIdentifierLookupHits
      = g.NumIdentifierLookupHits + (if hitsOn g op then 1 else 0) := by
  cases op <;> simp [applyReaderOp, lookupIdentifier, hitsOn]

theorem hitsOn_isLookup (g : GlobalModuleIndex) (op : ReaderOp)
    (h : hitsOn g op = true) : isLookup op = true := by
  cases op <;> simp_all [hitsOn, isLookup]

theorem runOps_lookups (g : GlobalModuleIndex) (ops : List ReaderOp) :
    (runOps g ops).NumIdentifierLookups
      = g.NumIdentifierLookups + countLookups ops := by
  induction ops generalizing g with
  | nil => simp [runOps, countLookups]
  | cons op rest ih =>
    have step : runOps g (op :: rest) = runOps (applyReaderOp g op) rest := rfl
    rw [step, ih, applyReaderOp_lookups]
    by_cases h : isLookup op
    · simp [countLookups, h]
      omega
    · simp [countLookups, h]

/-- C7: every call to `lookupIdentifier` increments the cumulative lookup
counter by exactly one, and increments the cumulative hit counter by one if
and only if it returns `true`; across any whole sequence of reader
operations in the process, the lookup counter accumulates one per lookup and
is never reset or decreased by any reader operation. -/
theorem C7_lookup_counters (g : GlobalModuleIndex) (name : String)
    (ops : List ReaderOp) :
    ((lookupIdentifier g name).2.NumIdentifierLookups
        = g.NumIdentifierLookups + 1)
    ∧ ((lookupIdentifier g name).2.NumIdentifierLookupHits
          = g.NumIdentifierLookupHits + 1
        ↔ (lookupIdentifier g name).1.1 = true)
    ∧ ((lookupIdentifier g name).1.1 = false →
        (lookupIdentifier g name).2.NumIdentifierLookupHits
          = g.NumIdentifierLookupHits)
    ∧ (runOps g ops).NumIdentifierLookups
        = g.NumIdentifierLookups + countLookups ops := by
  refine ⟨rfl, ?_, ?_, runOps_lookups g ops⟩
  · unfold lookupIdentifier
    cases h : (lookupIdentifierPI (toPersisted g) name).1 <;> simp [h]
  · intro h
    unfold lookupIdentifier at *
    simp only at h
    simp [h]

/-- Witness for C7: a hit on "foo" and the counter equations at a concrete
reader. -/
theorem C7_lookup_counters_witness :
    ((lookupIdentifier (ofPersisted (buildIndex [⟨"M1", ["foo"], []⟩]))
        "foo").1.1 = false →
      (lookupIdentifier (ofPersisted (buildIndex [⟨"M1", ["foo"], []⟩]))
          "foo").2.NumIdentifierLookupHits
        = (ofPersisted (buildIndex [⟨"M1", ["foo"], []⟩])).NumIdentifierLookupHits)
    ∧ (lookupIdentifier (ofPersisted (buildIndex [⟨"M1", ["foo"], []⟩]))
        "foo").2.NumIdentifierLookups
      = (ofPersisted (buildIndex [⟨"M1", ["foo"], []⟩])).NumIdentifierLookups + 1 :=
  ⟨(C7_lookup_counters (ofPersisted (buildIndex [⟨"M1", ["foo"], []⟩]))
      "foo" []).2.2.1,
   (C7_lookup_counters (ofPersisted (buildIndex [⟨"M1", ["foo"], []⟩]))
      "foo" []).1⟩

/-- C10: after any sequence of reader operations, the hit counter is at most
the lookup counter, and both counters are non-decreasing over the
sequence. -/
theorem C10_counter_invariant (g : GlobalModuleIndex) (ops : List ReaderOp)
    (h : g.NumIdentifierLookupHits ≤ g.NumIdentifierLookups) :
    (runOps g ops).NumIdentifierLookupHits
        ≤ (runOps g ops).NumIdentifierLookups
    ∧ g.NumIdentifierLookups ≤ (runOps g ops).NumIdentifierLookups
    ∧ g.NumIdentifierLookupHits ≤ (runOps g ops).NumIdentifierLookupHits := by
  induction ops generalizing g with
  | nil => exact ⟨h, le_rfl, le_rfl⟩
  | cons op rest ih =>
    have step : runOps g (op :: rest) = runOps (applyReaderOp g op) rest := rfl
    have hl := applyReaderOp_lookups g op
    have hh := applyReaderOp_hits g op
    have hle : (applyReaderOp g op).NumIdentifierLookupHits
        ≤ (applyReaderOp g op).NumIdentifierLookups := by
      rw [hl, hh]
      by_cases hho : hitsOn g op
      · have := hitsOn_isLookup g op hho
        simp [hho, this]; omega
      · simp [hho]; omega
    have hrec := ih (applyReaderOp g op) hle
    refine ⟨by rw [step]; exact hrec.1, ?_, ?_⟩
    · rw [step]
      refine le_trans ?_ hrec.2.1
      rw [hl]; omega
    · rw [step]
      refine le_trans ?_ hrec.2.2
      rw [hh]; omega

/-- Witness for C10: starting from a freshly opened reader (counters zero)
and running a hit, a miss and a non-lookup query. -/
theorem C10_counter_invariant_witness :
    ((ofPersisted (buildIndex [⟨"M1", ["foo"], []⟩])).NumIdentifierLookupHits
      ≤ (ofPersisted (buildIndex [⟨"M1", ["foo"], []⟩])).NumIdentifierLookups)
    ∧ ((runOps (ofPersisted (buildIndex [⟨"M1", ["foo"], []⟩]))
          [ReaderOp.lookup "foo", ReaderOp.lookup "qux",
           ReaderOp.knownModules]).NumIdentifierLookupHits
        ≤ (runOps (ofPersisted (buildIndex [⟨"M1", ["foo"], []⟩]))
            [ReaderOp.lookup "foo", ReaderOp.lookup "qux",
             ReaderOp.knownModules]).NumIdentifierLookups) :=
  ⟨Nat.le_refl 0,
   (C10_counter_invariant (ofPersisted (buildIndex [⟨"M1", ["foo"], []⟩]))
      [ReaderOp.lookup "foo", ReaderOp.lookup "qux", ReaderOp.knownModules]
      (Nat.le_refl 0)).1⟩

/-!
## Registry lemmas (C4)
-/

theorem findModuleID_sound (ms : List ModuleInfo) (f : FileEntry) (j : Nat)
    (h : findModuleID ms f = some j) :
    ∃ m, ms.get? j = some m ∧ m.File = some f := by
  induction ms generalizing j with
  | nil => simp [findModuleID] at h
  | cons m rest ih =>
    by_cases hm : m.File = some f
    · simp only [findModuleID, if_pos hm, Option.some_inj] at h
      exact ⟨m, by simp [← h], hm⟩
    · simp only [findModuleID, if_neg hm] at h
      cases hrest : findModuleID rest f with
      | none => rw [hrest] at h; simp at h
      | some j' =>
        rw [hrest] at h
        simp only [Option.map_some'] at h
        rcases ih j' hrest with ⟨m', hget, hfile⟩
        have hj : j = j' + 1 := (Option.some_inj.mp h).symm
        subst hj
        exact ⟨m', by rw [List.get?_cons_succ]; exact hget, hfile⟩

/-- C4: the module registry tolerates gaps as an invariant preserved by every
operation: a registered or removed module never rebinds a previously issued
ID to a different module (a removed module's slot becomes a gap, with an
empty file pointer, instead of triggering renumbering — removal preserves the
vector length), and `getKnownModules` returns exactly the modules with a
current (non-gap) entry. -/
theorem C4_registry_gap_invariant (ms : List ModuleInfo) (op : RegistryOp)
    (i : Nat) (m : ModuleInfo) (f : FileEntry)
    (hget : ms.get? i = some m) (hf : m.File = some f) :
    (∃ m', (applyRegistryOp ms op).get? i = some m'
        ∧ (m'.File = some f ∨ m'.File = none))
    ∧ (∀ p, (applyRegistryOp ms (RegistryOp.remove p)).length = ms.length)
    ∧ (∀ g, g ∈ knownModulesOf ms ↔ ∃ mm ∈ ms, mm.File = some g) := by
  have hi : i < ms.length := by
    by_contra hcon
    rw [List.get?_eq_none.mpr (Nat.le_of_not_lt hcon)] at hget
    exact Option.noConfusion hget
  refine ⟨?_, ?_, ?_⟩
  · cases op with
    | register path deps =>
      cases hfind : findModuleID ms path with
      | none =>
        refine ⟨m, ?_, Or.inl hf⟩
        simp only [applyRegistryOp, hfind]
        rw [List.get?_append hi]
        exact hget
      | some j =>
        by_cases hij : i = j
        · subst hij
          rcases findModuleID_sound ms path i hfind with ⟨m2, hget2, hfile2⟩
          have hm2 : m2 = m := by rw [hget] at hget2; exact Option.some_inj.mp hget2.symm
          have hpath : some path = some f := by rw [← hfile2, hm2, hf]
          refine ⟨⟨some path, deps⟩, ?_, Or.inl hpath⟩
          simp only [applyRegistryOp, hfind]
          rw [List.get?_set_eq_of_lt _ hi]
        · refine ⟨m, ?_, Or.inl hf⟩
          simp only [applyRegistryOp, hfind]
          rw [List.get?_set_ne _ _ (fun hh => hij hh.symm)]
          exact hget
    | remove path =>
      simp only [applyRegistryOp]
      rw [List.get?_map, hget]
      by_cases hp : m.File = some path
      · exact ⟨⟨none, m.Dependencies⟩, by simp [hp], Or.inr rfl⟩
      · exact ⟨m, by simp [hp], Or.inl hf⟩
  · intro p
    simp [applyRegistryOp]
  · intro g
    simp [knownModulesOf, List.mem_filterMap]

/-- Witness for C4: a two-module registry, removing "M1" leaves a gap at
slot 0 while slot 1 keeps "M2". -/
theorem C4_registry_gap_invariant_witness :
    (([(⟨some "M1", []⟩ : ModuleInfo), ⟨some "M2", ["M1"]⟩].get? 1
        = some ⟨some "M2", ["M1"]⟩)
      ∧ (⟨some "M2", ["M1"]⟩ : ModuleInfo).File = some "M2")
    ∧ ((∃ m', (applyRegistryOp [⟨some "M1", []⟩, ⟨some "M2", ["M1"]⟩]
            (RegistryOp.remove "M1")).get? 1 = some m'
          ∧ (m'.File = some "M2" ∨ m'.File = none))
        ∧ (∀ p, (applyRegistryOp [(⟨some "M1", []⟩ : ModuleInfo), ⟨some "M2", ["M1"]⟩]
            (RegistryOp.remove p)).length
            = ([(⟨some "M1", []⟩ : ModuleInfo), ⟨some "M2", ["M1"]⟩] : List ModuleInfo).length)
        ∧ (∀ g, g ∈ knownModulesOf [⟨some "M1", []⟩, ⟨some "M2", ["M1"]⟩]
            ↔ ∃ mm ∈ [(⟨some "M1", []⟩ : ModuleInfo), ⟨some "M2", ["M1"]⟩],
                mm.File = some g)) :=
  ⟨⟨rfl, rfl⟩,
   C4_registry_gap_invariant [⟨some "M1", []⟩, ⟨some "M2", ["M1"]⟩]
     (RegistryOp.remove "M1") 1 ⟨some "M2", ["M1"]⟩ "M2" rfl rfl⟩

/-- The directory states visible to a concurrent reader while the builder is
mid-write (after it has started and before the atomic publish step). -/
def midWrite (d : Directory) (bytes : List Nat) (publishOk : Bool) :
    List Directory :=
  ((builderTrace d bytes publishOk).drop 1).take 2

/-- C9: a reader opened against the directory while a builder is mid-write
never observes a torn or partially written index file: during the write it
sees the `EC_Building` marker or the previous generation, and over the whole
build every observable state yields the previous complete generation, the
`EC_Building` code, or (after a successful publish) the complete new
generation. -/
theorem C9_concurrent_build_safety (d : Directory) (p : PersistedIndex)
    (publishOk : Bool) (hm : d.marker = false) :
    (∀ d' ∈ midWrite d (serialize p) publishOk,
        readIndexDir d' = readIndexDir d
        ∨ (readIndexDir d').2 = ErrorCode.EC_Building)
    ∧ (∀ d' ∈ builderTrace d (serialize p) publishOk,
        readIndexDir d' = readIndexDir d
        ∨ (readIndexDir d').2 = ErrorCode.EC_Building
        ∨ readIndexDir d' = (some p, ErrorCode.EC_None)) := by
  constructor
  · intro d' hd'
    simp only [midWrite, builderTrace, List.drop, List.take, List.mem_cons,
      List.not_mem_nil, or_false] at hd'
    rcases hd' with rfl | rfl
    · exact Or.inr (by simp [readIndexDir])
    · exact Or.inr (by simp [readIndexDir])
  · intro d' hd'
    simp only [builderTrace, List.mem_cons, List.not_mem_nil, or_false] at hd'
    rcases hd' with rfl | rfl | rfl | rfl
    · exact Or.inl rfl
    · exact Or.inr (Or.inl (by simp [readIndexDir]))
    · exact Or.inr (Or.inl (by simp [readIndexDir]))
    · cases publishOk with
      | true =>
        refine Or.inr (Or.inr ?_)
        simp [readIndexDir, deserialize_serialize]
      | false =>
        refine Or.inl ?_
        simp [readIndexDir, hm]

/-- Witness for C9 at a concrete directory, index and successful publish. -/
theorem C9_concurrent_build_safety_witness :
    ((⟨none, none, false⟩ : Directory).marker = false)
    ∧ ((∀ d' ∈ midWrite ⟨none, none, false⟩
          (serialize ⟨[⟨some "M1", []⟩], [("foo", [0])]⟩) true,
          readIndexDir d' = readIndexDir ⟨none, none, false⟩
          ∨ (readIndexDir d').2 = ErrorCode.EC_Building)
      ∧ (∀ d' ∈ builderTrace ⟨none, none, false⟩
            (serialize ⟨[⟨some "M1", []⟩], [("foo", [0])]⟩) true,
          readIndexDir d' = readIndexDir ⟨none, none, false⟩
          ∨ (readIndexDir d').2 = ErrorCode.EC_Building
          ∨ readIndexDir d'
              = (some ⟨[⟨some "M1", []⟩], [("foo", [0])]⟩, ErrorCode.EC_None))) :=
  ⟨rfl,
   C9_concurrent_build_safety ⟨none, none, false⟩
     ⟨[⟨some "M1", []⟩], [("foo", [0])]⟩ true rfl⟩

/-!
## The incremental builder (C6, C8)

Modelled from the spec (§4.4): candidates are the module files found in the
directory, each with its staleness flag; unchanged, already-indexed modules
are skipped entirely — their prior IdentifierEntry contributions and
ModuleFile record are carried forward unchanged into the new generation —
while new or changed modules are scanned via the module-file collaborator
(which may fail, in which case the module is skipped).
-/

/-- A candidate module file found in the directory during builder step 1,
with its staleness flag (builder step 2). -/
structure Candidate where
  path : FileEntry
  stale : Bool
  deriving DecidableEq

/-- Whether a candidate is carried forward unchanged: it is not stale and is
already indexed. -/
def carriedCand (prev : PersistedIndex) (c : Candidate) : Bool :=
  !c.stale && (findModuleID prev.Modules c.path).isSome

/-- Whether the module with ID `i` of the previous generation is carried
forward: its slot is occupied and some unchanged candidate has its path. -/
def isCarriedID (prev : PersistedIndex) (cands : List Candidate) (i : Nat) :
    Bool :=
  match prev.Modules.get? i with
  | some m =>
    match m.File with
    | some f => cands.any fun c => decide (c.path = f) && !c.stale
    | none => false
  | none => false

/-- The new generation's module vector before scanning: carried modules keep
their record at the same ID; every other slot becomes a gap.  IDs are never
renumbered. -/
def carryModules (prev : PersistedIndex) (cands : List Candidate) :
    List ModuleInfo :=
  (List.range prev.Modules.length).map fun i =>
    if isCarriedID prev cands i then (prev.Modules.get? i).getD ⟨none, []⟩
    else ⟨none, []⟩

/-- The new generation's identifier table before scanning: each entry keeps
exactly the module IDs carried forward; entries left empty are dropped. -/
def carryTable (prev : PersistedIndex) (cands : List Candidate) :
    List (String × List Nat) :=
  prev.IdentifierTable.filterMap fun e =>
    let ids := e.2.filter fun i => isCarriedID prev cands i
    if ids = [] then none else some (e.1, ids)

/-- Scan one candidate via the module-file collaborator.  A failed scan
(`none`, a `PartialScanFailure`) skips the module; a successful scan merges
its identifiers and dependencies under a fresh ID. -/
def scanStep (scanner : FileEntry → Option ModuleScan) (p : PersistedIndex)
    (c : Candidate) : PersistedIndex :=
  match scanner c.path with
  | none => p
  | some s => addModule p ⟨c.path, s.identifiers, s.dependencies⟩

/-- Modelled from the spec: one incremental rebuild: carry forward unchanged
indexed modules without rescanning them, then scan every new or changed
candidate. -/
def incrementalBuild (prev : PersistedIndex) (cands : List Candidate)
    (scanner : FileEntry → Option ModuleScan) : PersistedIndex :=
  (cands.filter fun c => !(carriedCand prev c)).foldl (scanStep scanner)
    ⟨carryModules prev cands, carryTable prev cands⟩

/-- The identifier entries attributable to module `i` in a table: the
spellings whose module-ID set contains `i`. -/
def attrT (tbl : List (String × List Nat)) (i : Nat) : List String :=
  tbl.filterMap fun e => if i ∈ e.2 then some e.1 else none

/-- The identifier entries attributable to module `i` in an index. -/
def attributedTo (p : PersistedIndex) (i : Nat) : List String :=
  attrT p.IdentifierTable i

/-! ### Incremental-build lemmas -/

theorem attrT_addIdent_ne (j i : Nat) (tbl : List (String × List Nat))
    (name : String) (h : j ≠ i) :
    attrT (addIdent j tbl name) i = attrT tbl i := by
  have hij : ¬ (i = j) := fun hh => h hh.symm
  induction tbl with
  | nil => simp [addIdent, attrT, hij]
  | cons e rest ih =>
    by_cases he : e.1 = name
    · have hmem : (i ∈ insertID j e.2) ↔ i ∈ e.2 := by
        rw [mem_insertID]; simp [hij]
      by_cases hi : i ∈ e.2
      · simp [addIdent, attrT, he, hmem, hi]
      · simp [addIdent, attrT, he, hmem, hi]
    · by_cases hi : i ∈ e.2
      · simp only [addIdent, if_neg he]
        simp only [attrT, List.filterMap_cons, if_pos hi]
        unfold attrT at ih
        rw [ih]
      · simp only [addIdent, if_neg he]
        simp only [attrT, List.filterMap_cons, if_neg hi]
        unfold attrT at ih
        rw [ih]

theorem attrT_addIdents_ne (j i : Nat) (h : j ≠ i) (names : List String)
    (tbl : List (String × List Nat)) :
    attrT (addIdents j tbl names) i = attrT tbl i := by
  induction names generalizing tbl with
  | nil => rfl
  | cons n rest ih =>
    have step : addIdents j tbl (n :: rest) = addIdents j (addIdent j tbl n) rest := rfl
    rw [step, ih, attrT_addIdent_ne j i tbl n h]

theorem attributedTo_addModule_ne (p : PersistedIndex) (s : ModuleScan)
    (i : Nat) (h : i ≠ p.Modules.length) :
    attributedTo (addModule p s) i = attributedTo p i := by
  unfold attributedTo addModule
  exact attrT_addIdents_ne p.Modules.length i (fun hh => h hh.symm) _ _

theorem scanStep_length_le (scanner : FileEntry → Option ModuleScan)
    (p : PersistedIndex) (c : Candidate) :
    p.Modules.length ≤ (scanStep scanner p c).Modules.length := by
  cases hs : scanner c.path with
  | none => simp [scanStep, hs]
  | some s => simp [scanStep, hs, addModule]

theorem scanStep_get? (scanner : FileEntry → Option ModuleScan)
    (p : PersistedIndex) (c : Candidate) (i : Nat) (h : i < p.Modules.length) :
    (scanStep scanner p c).Modules.get? i = p.Modules.get? i := by
  cases hs : scanner c.path with
  | none => simp [scanStep, hs]
  | some s =>
    simp only [scanStep, hs, addModule]
    exact List.get?_append h

theorem scanStep_idsFor_mono (scanner : FileEntry → Option ModuleScan)
    (p : PersistedIndex) (c : Candidate) (n : String) (x : Nat)
    (h : x ∈ idsFor p n) : x ∈ idsFor (scanStep scanner p c) n := by
  cases hs : scanner c.path with
  | none => simpa [scanStep, hs]
  | some s =>
    simp only [scanStep, hs]
    rw [idsFor_addModule]
    exact Or.inl h

theorem scanStep_attributedTo (scanner : FileEntry → Option ModuleScan)
    (p : PersistedIndex) (c : Candidate) (i : Nat) (h : i < p.Modules.length) :
    attributedTo (scanStep scanner p c) i = attributedTo p i := by
  cases hs : scanner c.path with
  | none => simp [scanStep, hs]
  | some s =>
    simp only [scanStep, hs]
    exact attributedTo_addModule_ne p _ i (Nat.ne_of_lt h)

theorem foldScan_length_le (scanner : FileEntry → Option ModuleScan)
    (l : List Candidate) (p : PersistedIndex) :
    p.Modules.length ≤ (l.foldl (scanStep scanner) p).Modules.length := by
  induction l generalizing p with
  | nil => exact le_rfl
  | cons c rest ih =>
    exact le_trans (scanStep_length_le scanner p c) (ih (scanStep scanner p c))

theorem foldScan_get? (scanner : FileEntry → Option ModuleScan)
    (l : List Candidate) (p : PersistedIndex) (i : Nat)
    (h : i < p.Modules.length) :
    (l.foldl (scanStep scanner) p).Modules.get? i = p.Modules.get? i := by
  induction l generalizing p with
  | nil => rfl
  | cons c rest ih =>
    have h2 : i < (scanStep scanner p c).Modules.length :=
      Nat.lt_of_lt_of_le h (scanStep_length_le scanner p c)
    calc (List.foldl (scanStep scanner) (scanStep scanner p c) rest).Modules.get? i
        = (scanStep scanner p c).Modules.get? i := ih (scanStep scanner p c) h2
      _ = p.Modules.get? i := scanStep_get? scanner p c i h

theorem foldScan_idsFor_mono (scanner : FileEntry → Option ModuleScan)
    (l : List Candidate) (p : PersistedIndex) (n : String) (x : Nat)
    (h : x ∈ idsFor p n) :
    x ∈ idsFor (l.foldl (scanStep scanner) p) n := by
  induction l generalizing p with
  | nil => exact h
  | cons c rest ih =>
    exact ih (scanStep scanner p c) (scanStep_idsFor_mono scanner p c n x h)

theorem foldScan_attributedTo (scanner : FileEntry → Option ModuleScan)
    (l : List Candidate) (p : PersistedIndex) (i : Nat)
    (h : i < p.Modules.length) :
    attributedTo (l.foldl (scanStep scanner) p) i = attributedTo p i := by
  induction l generalizing p with
  | nil => rfl
  | cons c rest ih =>
    have h2 : i < (scanStep scanner p c).Modules.length :=
      Nat.lt_of_lt_of_le h (scanStep_length_le scanner p c)
    calc attributedTo (List.foldl (scanStep scanner) (scanStep scanner p c) rest) i
        = attributedTo (scanStep scanner p c) i := ih (scanStep scanner p c) h2
      _ = attributedTo p i := scanStep_attributedTo scanner p c i h

theorem carryModules_length (prev : PersistedIndex) (cands : List Candidate) :
    (carryModules prev cands).length = prev.Modules.length := by
  simp [carryModules]

theorem isCarriedID_lt (prev : PersistedIndex) (cands : List Candidate)
    (i : Nat) (h : isCarriedID prev cands i = true) :
    i < prev.Modules.length := by
  by_contra hcon
  have : prev.Modules.get? i = none :=
    List.get?_eq_none.mpr (Nat.le_of_not_lt hcon)
  rw [isCarriedID, this] at h
  exact Bool.noConfusion h

theorem carryModules_get?_carried (prev : PersistedIndex)
    (cands : List Candidate) (i : Nat) (h : isCarriedID prev cands i = true) :
    (carryModules prev cands).get? i = prev.Modules.get? i := by
  have hi : i < prev.Modules.length := isCarriedID_lt prev cands i h
  obtain ⟨m, hm⟩ : ∃ m, prev.Modules.get? i = some m := by
    cases hg : prev.Modules.get? i with
    | none => exact absurd (List.get?_eq_none.mp hg) (Nat.not_le_of_lt hi)
    | some m => exact ⟨m, rfl⟩
  unfold carryModules
  rw [List.get?_map, List.get?_range hi]
  simp only [Option.map_some', h, if_true]
  rw [hm]
  rfl

theorem attrT_filter_entries (tbl : List (String × List Nat))
    (pred : Nat → Bool) (i : Nat) (h : pred i = true) :
    attrT (tbl.filterMap fun e =>
        let ids := e.2.filter pred
        if ids = [] then none else some (e.1, ids)) i
      = attrT tbl i := by
  induction tbl with
  | nil => rfl
  | cons e rest ih =>
    by_cases hi : i ∈ e.2
    · have hmem : i ∈ e.2.filter pred := List.mem_filter.mpr ⟨hi, h⟩
      have hne : e.2.filter pred ≠ [] := List.ne_nil_of_mem hmem
      simp only [List.filterMap_cons, if_neg hne]
      simp only [attrT, List.filterMap_cons, if_pos hmem, if_pos hi]
      unfold attrT at ih
      rw [ih]
    · have hnm : i ∉ e.2.filter pred := fun hmem => hi (List.mem_filter.mp hmem).1
      by_cases hnil : e.2.filter pred = []
      · simp only [List.filterMap_cons, if_pos hnil]
        simp only [attrT, List.filterMap_cons, if_neg hi]
        unfold attrT at ih
        rw [ih]
      · simp only [List.filterMap_cons, if_neg hnil]
        simp only [attrT, List.filterMap_cons, if_neg hnm, if_neg hi]
        unfold attrT at ih
        rw [ih]

theorem attrT_carryTable (prev : PersistedIndex) (cands : List Candidate)
    (i : Nat) (h : isCarriedID prev cands i = true) :
    attrT (carryTable prev cands) i = attrT prev.IdentifierTable i :=
  attrT_filter_entries prev.IdentifierTable
    (fun j => isCarriedID prev cands j) i h

theorem findModuleID_complete (ms : List ModuleInfo) (f : FileEntry)
    (h : ∃ m ∈ ms, m.File = some f) : (findModuleID ms f).isSome = true := by
  induction ms with
  | nil => simp at h
  | cons m rest ih =>
    by_cases hm : m.File = some f
    · simp [findModuleID, hm]
    · rcases h with ⟨m', hm', hf'⟩
      rcases List.mem_cons.mp hm' with rfl | hm'
      · exact absurd hf' hm
      · simp only [findModuleID, if_neg hm]
        have := ih ⟨m', hm', hf'⟩
        cases hr : findModuleID rest f with
        | none => rw [hr] at this; exact Bool.noConfusion this
        | some j => simp [hr]

theorem isCarriedID_of_candidate (prev : PersistedIndex)
    (cands : List Candidate) (A : Candidate) (i : Nat) (hA : A ∈ cands)
    (hstale : A.stale = false)
    (hid : findModuleID prev.Modules A.path = some i) :
    isCarriedID prev cands i = true := by
  rcases findModuleID_sound prev.Modules A.path i hid with ⟨m, hget, hfile⟩
  simp only [isCarriedID, hget, hfile]
  rw [List.any_eq_true]
  exact ⟨A, hA, by simp [hstale]⟩

theorem foldScan_adds (scanner : FileEntry → Option ModuleScan)
    (l : List Candidate) (p : PersistedIndex) (c : Candidate) (s : ModuleScan)
    (hc : c ∈ l) (hs : scanner c.path = some s) :
    ∃ id, (l.foldl (scanStep scanner) p).Modules.get? id
        = some ⟨some c.path, s.dependencies⟩
      ∧ ∀ n ∈ s.identifiers, id ∈ idsFor (l.foldl (scanStep scanner) p) n := by
  induction l generalizing p with
  | nil => cases hc
  | cons c0 rest ih =>
    have step : List.foldl (scanStep scanner) p (c0 :: rest)
        = List.foldl (scanStep scanner) (scanStep scanner p c0) rest := rfl
    rcases List.mem_cons.mp hc with rfl | hc'
    · refine ⟨p.Modules.length, ?_, ?_⟩
      · have hlt : p.Modules.length < (scanStep scanner p c).Modules.length := by
          simp [scanStep, hs, addModule]
        rw [step, foldScan_get? scanner rest (scanStep scanner p c)
          p.Modules.length hlt]
        simp only [scanStep, hs, addModule]
        exact List.get?_concat_length _ _
      · intro n hn
        have h2 : p.Modules.length ∈ idsFor (scanStep scanner p c) n := by
          simp only [scanStep, hs]
          rw [idsFor_addModule]
          exact Or.inr ⟨hn, rfl⟩
        rw [step]
        exact foldScan_idsFor_mono scanner rest (scanStep scanner p c) n
          p.Modules.length h2
    · rw [step]
      exact ih (scanStep scanner p c0) hc'

/-- C6: incremental rebuild frame property.  If module `A` is unchanged
(not stale) and already indexed at ID `i`, and module `B` is a new candidate
whose scan succeeds, then in the new generation: the identifier entries
attributable to `A` are identical in content to the previous generation's,
`A`'s module record keeps its ID and content, the whole build result is
independent of what scanning `A` would return (so `A` is not rescanned),
and `B`'s record and all of `B`'s identifiers are added under `B`'s new
ID. -/
theorem C6_incremental_frame (prev : PersistedIndex) (cands : List Candidate)
    (scanner scanner' : FileEntry → Option ModuleScan) (A B : Candidate)
    (i : Nat) (s : ModuleScan)
    (hA : A ∈ cands) (hAfresh : A.stale = false)
    (hAid : findModuleID prev.Modules A.path = some i)
    (hNodup : (cands.map Candidate.path).Nodup)
    (hB : B ∈ cands) (hBnew : carriedCand prev B = false)
    (hscan : scanner B.path = some s)
    (hframe : ∀ f, f ≠ A.path → scanner' f = scanner f) :
    attributedTo (incrementalBuild prev cands scanner) i = attributedTo prev i
    ∧ (incrementalBuild prev cands scanner).Modules.get? i
        = prev.Modules.get? i
    ∧ incrementalBuild prev cands scanner'
        = incrementalBuild prev cands scanner
    ∧ ∃ idB, (incrementalBuild prev cands scanner).Modules.get? idB
          = some ⟨some B.path, s.dependencies⟩
        ∧ ∀ n ∈ s.identifiers,
            idB ∈ idsFor (incrementalBuild prev cands scanner) n := by
  have hcarried : isCarriedID prev cands i = true :=
    isCarriedID_of_candidate prev cands A i hA hAfresh hAid
  have hi : i < prev.Modules.length := isCarriedID_lt prev cands i hcarried
  have hbase : i < (carryModules prev cands).length := by
    rw [carryModules_length]; exact hi
  have hAcarried : carriedCand prev A = true := by
    simp [carriedCand, hAfresh, hAid]
  refine ⟨?_, ?_, ?_, ?_⟩
  · unfold incrementalBuild
    rw [foldScan_attributedTo scanner _ _ i hbase]
    exact attrT_carryTable prev cands i hcarried
  · unfold incrementalBuild
    rw [foldScan_get? scanner _ _ i hbase]
    exact carryModules_get?_carried prev cands i hcarried
  · unfold incrementalBuild
    apply List.foldl_ext
    intro p c hcmem
    rcases List.mem_filter.mp hcmem with ⟨hcin, hcnot⟩
    have hcA : c ≠ A := by
      intro hh
      subst hh
      rw [hAcarried] at hcnot
      exact Bool.noConfusion hcnot
    have hpath : c.path ≠ A.path := by
      intro hh
      exact hcA (List.inj_on_of_nodup_map hNodup hcin hA hh)
    unfold scanStep
    rw [hframe c.path hpath]
  · have hBin : B ∈ cands.filter fun c => !(carriedCand prev c) :=
      List.mem_filter.mpr ⟨hB, by rw [hBnew]; rfl⟩
    exact foldScan_adds scanner _ _ B s hBin hscan

/-- Witness for C6: previous generation indexes A (ID 0, declares "a");
candidates are unchanged A and new B; scanning B yields "b" and a dependency
on A. -/
theorem C6_incremental_frame_witness :
    ((⟨"A", false⟩ : Candidate) ∈ [(⟨"A", false⟩ : Candidate), ⟨"B", true⟩]
      ∧ (⟨"A", false⟩ : Candidate).stale = false
      ∧ findModuleID (⟨[⟨some "A", []⟩], [("a", [0])]⟩ : PersistedIndex).Modules
          (⟨"A", false⟩ : Candidate).path = some 0
      ∧ (([(⟨"A", false⟩ : Candidate), ⟨"B", true⟩].map Candidate.path).Nodup)
      ∧ (⟨"B", true⟩ : Candidate) ∈ [(⟨"A", false⟩ : Candidate), ⟨"B", true⟩]
      ∧ carriedCand ⟨[⟨some "A", []⟩], [("a", [0])]⟩ (⟨"B", true⟩ : Candidate)
          = false
      ∧ (fun f => if f = "B" then some (⟨"B", ["b"], ["A"]⟩ : ModuleScan)
          else none) (⟨"B", true⟩ : Candidate).path = some ⟨"B", ["b"], ["A"]⟩)
    ∧ (attributedTo (incrementalBuild ⟨[⟨some "A", []⟩], [("a", [0])]⟩
          [⟨"A", false⟩, ⟨"B", true⟩]
          (fun f => if f = "B" then some ⟨"B", ["b"], ["A"]⟩ else none)) 0
        = attributedTo ⟨[⟨some "A", []⟩], [("a", [0])]⟩ 0
      ∧ (incrementalBuild ⟨[⟨some "A", []⟩], [("a", [0])]⟩
          [⟨"A", false⟩, ⟨"B", true⟩]
          (fun f => if f = "B" then some ⟨"B", ["b"], ["A"]⟩ else none)).Modules.get? 0
        = (⟨[⟨some "A", []⟩], [("a", [0])]⟩ : PersistedIndex).Modules.get? 0
      ∧ incrementalBuild ⟨[⟨some "A", []⟩], [("a", [0])]⟩
          [⟨"A", false⟩, ⟨"B", true⟩]
          (fun f => if f = "B" then some ⟨"B", ["b"], ["A"]⟩ else none)
        = incrementalBuild ⟨[⟨some "A", []⟩], [("a", [0])]⟩
          [⟨"A", false⟩, ⟨"B", true⟩]
          (fun f => if f = "B" then some ⟨"B", ["b"], ["A"]⟩ else none)
      ∧ ∃ idB, (incrementalBuild ⟨[⟨some "A", []⟩], [("a", [0])]⟩
            [⟨"A", false⟩, ⟨"B", true⟩]
            (fun f => if f = "B" then some ⟨"B", ["b"], ["A"]⟩ else none)).Modules.get? idB
          = some ⟨some "B", ["A"]⟩
        ∧ ∀ n ∈ ["b"],
            idB ∈ idsFor (incrementalBuild ⟨[⟨some "A", []⟩], [("a", [0])]⟩
              [⟨"A", false⟩, ⟨"B", true⟩]
              (fun f => if f = "B" then some ⟨"B", ["b"], ["A"]⟩ else none)) n) :=
  ⟨⟨by decide, rfl, by decide, by decide, by decide, by decide, by decide⟩,
   C6_incremental_frame ⟨[⟨some "A", []⟩], [("a", [0])]⟩
     [⟨"A", false⟩, ⟨"B", true⟩]
     (fun f => if f = "B" then some ⟨"B", ["b"], ["A"]⟩ else none)
     (fun f => if f = "B" then some ⟨"B", ["b"], ["A"]⟩ else none)
     ⟨"A", false⟩ ⟨"B", true⟩ 0 ⟨"B", ["b"], ["A"]⟩
     (by decide) rfl (by decide) (by decide) (by decide) (by decide)
     (by decide) (fun _ _ => rfl)⟩

/-! ### Builder failure lemmas (C8) -/

theorem isCarriedID_drop_failed (prev : PersistedIndex)
    (l₁ l₂ : List Candidate) (c : Candidate)
    (hc : carriedCand prev c = false) (i : Nat) :
    isCarriedID prev (l₁ ++ c :: l₂) i = isCarriedID prev (l₁ ++ l₂) i := by
  unfold isCarriedID
  cases hg : prev.Modules.get? i with
  | none => rfl
  | some m =>
    dsimp only
    cases hf : m.File with
    | none => rfl
    | some f =>
      dsimp only
      simp only [List.any_append, List.any_cons]
      have hpred : (decide (c.path = f) && !c.stale) = false := by
        by_cases hst : c.stale
        · simp [hst]
        · by_cases hp : c.path = f
          · exfalso
            have hsome : (findModuleID prev.Modules c.path).isSome = true := by
              apply findModuleID_complete
              exact ⟨m, List.get?_mem hg, by rw [hf, hp]⟩
            rw [carriedCand, hsome] at hc
            simp [hst] at hc
          · simp [hp]
      rw [hpred]
      simp

theorem carryModules_drop_failed (prev : PersistedIndex)
    (l₁ l₂ : List Candidate) (c : Candidate)
    (hc : carriedCand prev c = false) :
    carryModules prev (l₁ ++ c :: l₂) = carryModules prev (l₁ ++ l₂) := by
  have hfun : isCarriedID prev (l₁ ++ c :: l₂) = isCarriedID prev (l₁ ++ l₂) :=
    funext (isCarriedID_drop_failed prev l₁ l₂ c hc)
  unfold carryModules
  rw [hfun]

theorem carryTable_drop_failed (prev : PersistedIndex)
    (l₁ l₂ : List Candidate) (c : Candidate)
    (hc : carriedCand prev c = false) :
    carryTable prev (l₁ ++ c :: l₂) = carryTable prev (l₁ ++ l₂) := by
  have hfun : isCarriedID prev (l₁ ++ c :: l₂) = isCarriedID prev (l₁ ++ l₂) :=
    funext (isCarriedID_drop_failed prev l₁ l₂ c hc)
  unfold carryTable
  rw [hfun]

/-- C8: builder failure semantics.  A candidate whose individual scan fails
with an I/O error (`scanner c.path = none`) is skipped: the build result is
exactly as if the candidate had not been found, and the rest of the build
continues.  A failure on the final publish step aborts the build attempt
with `EC_IOError` and leaves the previously published index unchanged. -/
theorem C8_builder_failure_semantics (prev : PersistedIndex)
    (l₁ l₂ : List Candidate) (c : Candidate)
    (scanner : FileEntry → Option ModuleScan) (d : Directory)
    (p : PersistedIndex)
    (hc : carriedCand prev c = false) (hscan : scanner c.path = none)
    (hm : d.marker = false) :
    incrementalBuild prev (l₁ ++ c :: l₂) scanner
        = incrementalBuild prev (l₁ ++ l₂) scanner
    ∧ (writeIndexDir d p false).1.index = d.index
    ∧ (writeIndexDir d p false).2 = ErrorCode.EC_IOError := by
  refine ⟨?_, ?_, ?_⟩
  · unfold incrementalBuild
    rw [carryModules_drop_failed prev l₁ l₂ c hc,
        carryTable_drop_failed prev l₁ l₂ c hc]
    rw [List.filter_append, List.filter_append]
    have hckeep : (!(carriedCand prev c)) = true := by rw [hc]; rfl
    rw [show List.filter (fun c => !(carriedCand prev c)) (c :: l₂)
        = c :: List.filter (fun c => !(carriedCand prev c)) l₂ from
      List.filter_cons_of_pos hckeep]
    have hstep : scanStep scanner
        (List.foldl (scanStep scanner)
          ⟨carryModules prev (l₁ ++ l₂), carryTable prev (l₁ ++ l₂)⟩
          (l₁.filter fun c => !(carriedCand prev c))) c
        = List.foldl (scanStep scanner)
          ⟨carryModules prev (l₁ ++ l₂), carryTable prev (l₁ ++ l₂)⟩
          (l₁.filter fun c => !(carriedCand prev c)) := by
      unfold scanStep
      rw [hscan]
    rw [List.foldl_append, List.foldl_append, List.foldl_cons, hstep]
  · simp [writeIndexDir, hm]
  · simp [writeIndexDir, hm]

/-- Witness for C8: candidate "C" is new but its scan fails, so the build
equals the build without it; a failed publish into a directory holding a
published index leaves that index unchanged and reports `EC_IOError`. -/
theorem C8_builder_failure_semantics_witness :
    (carriedCand (⟨[], []⟩ : PersistedIndex) (⟨"C", true⟩ : Candidate) = false
      ∧ (fun f => if f = "B" then some (⟨"B", ["b"], []⟩ : ModuleScan)
          else none) (⟨"C", true⟩ : Candidate).path = none
      ∧ (⟨some [7], none, false⟩ : Directory).marker = false)
    ∧ (incrementalBuild ⟨[], []⟩ [⟨"C", true⟩, ⟨"B", true⟩]
          (fun f => if f = "B" then some ⟨"B", ["b"], []⟩ else none)
        = incrementalBuild ⟨[], []⟩ [⟨"B", true⟩]
          (fun f => if f = "B" then some ⟨"B", ["b"], []⟩ else none)
      ∧ (writeIndexDir ⟨some [7], none, false⟩ ⟨[], []⟩ false).1.index
          = (⟨some [7], none, false⟩ : Directory).index
      ∧ (writeIndexDir ⟨some [7], none, false⟩ ⟨[], []⟩ false).2
          = ErrorCode.EC_IOError) :=
  ⟨⟨by decide, by decide, rfl⟩,
   C8_builder_failure_semantics ⟨[], []⟩ [] [⟨"B", true⟩] ⟨"C", true⟩
     (fun f => if f = "B" then some ⟨"B", ["b"], []⟩ else none)
     ⟨some [7], none, false⟩ ⟨[], []⟩ (by decide) (by decide) rfl⟩

end GMI
